import Mathlib

/-!
Verification of the `list_utils` depth-normalization library.

The Python values the library operates on are modelled by a mutual inductive
type `Val`: atomic integers, strings, byte-sequences, and the strict
containers (list, tuple, set, dict).  Strict containers carry their children
as a `VList` (a list of values) or `VPairs` (key/value pairs for dicts);
the mutual encoding keeps every function structurally recursive and hence
kernel-computable.

Each definition below is a direct translation of the corresponding Python
function from `list_utils` (`validation/depth.py`, `validation/type_checks.py`,
`preparation/depth.py`, `preparation/args_depth.py`).  Python exceptions are
modelled with `Except DepthError`.
-/

mutual

inductive Val : Type where
  | int : Int → Val
  | str : String → Val
  | bytes : List Nat → Val
  | list : VList → Val
  | tup : VList → Val
  | set : VList → Val
  | dict : VPairs → Val
deriving DecidableEq

inductive VList : Type where
  | nil : VList
  | cons : Val → VList → VList
deriving DecidableEq

inductive VPairs : Type where
  | nil : VPairs
  | cons : Val → Val → VPairs → VPairs
deriving DecidableEq

end

/-- Length of a `VList`. -/
def VList.length : VList → Nat
  | .nil => 0
  | .cons _ rest => rest.length + 1

/-- Number of key/value pairs. -/
def VPairs.length : VPairs → Nat
  | .nil => 0
  | .cons _ _ rest => rest.length + 1

/-- The keys of a dict, in iteration order. -/
def VPairs.keys : VPairs → VList
  | .nil => .nil
  | .cons k _ rest => .cons k (keys rest)

/-- Concatenation of two `VList`s. -/
def VList.append : VList → VList → VList
  | .nil, ys => ys
  | .cons x rest, ys => .cons x (rest.append ys)

/-- Whether a `VList` is empty. -/
def VList.isNil : VList → Bool
  | .nil => true
  | .cons _ _ => false

/-- Whether a `VPairs` is empty. -/
def VPairs.isNil : VPairs → Bool
  | .nil => true
  | .cons _ _ _ => false

/-- `is_strict_container` from `validation/type_checks.py`: sized and iterable,
excluding strings, bytes, generators and ranges.  In the model the strict
containers are exactly the list/tuple/set/dict constructors. -/
def is_strict_container : Val → Bool
  | .list _ | .tup _ | .set _ | .dict _ => true
  | .int _ | .str _ | .bytes _ => false

/-- Default Python iteration over a value: the elements of a list/tuple/set,
the keys of a dict, nothing for non-containers. -/
def elems : Val → VList
  | .list xs | .tup xs | .set xs => xs
  | .dict kvs => kvs.keys
  | .int _ | .str _ | .bytes _ => .nil

mutual

/-- `get_max_depth` from `validation/depth.py`: strings/bytes report their
configured depth, non-containers report 0, a strict container reports
`1 + max(child depths, default 0)`; for dicts the iterated items are the
values when `dv = true`, the keys otherwise. -/
def get_max_depth : Val → Nat → Nat → Bool → Nat
  | .str _, s, _, _ => s
  | .bytes _, _, b, _ => b
  | .int _, _, _, _ => 0
  | .list xs, s, b, dv => 1 + maxDepthL xs s b dv
  | .tup xs, s, b, dv => 1 + maxDepthL xs s b dv
  | .set xs, s, b, dv => 1 + maxDepthL xs s b dv
  | .dict kvs, s, b, dv => 1 + maxDepthP kvs s b dv

/-- `max(get_max_depth(item) for item in items, default=0)` over a `VList`. -/
def maxDepthL : VList → Nat → Nat → Bool → Nat
  | .nil, _, _, _ => 0
  | .cons x rest, s, b, dv => max (get_max_depth x s b dv) (maxDepthL rest s b dv)

/-- The same maximum over the iterated side of a dict's pairs. -/
def maxDepthP : VPairs → Nat → Nat → Bool → Nat
  | .nil, _, _, _ => 0
  | .cons k v rest, s, b, dv =>
      max (if dv then get_max_depth v s b dv else get_max_depth k s b dv)
        (maxDepthP rest s b dv)

end

mutual

/-- `is_depth_at_least` from `validation/depth.py`: `depth <= 0` is trivially
true; strings/bytes compare their configured depth; a strict container
satisfies the predicate iff some iterated child satisfies it at `depth - 1`. -/
def is_depth_at_least : Val → Int → Nat → Nat → Bool → Bool
  | x, d, s, b, dv =>
    if d ≤ 0 then true
    else
      match x with
      | .str _ => decide (d ≤ (s : Int))
      | .bytes _ => decide (d ≤ (b : Int))
      | .int _ => false
      | .list xs | .tup xs | .set xs => anyAtLeastL xs (d - 1) s b dv
      | .dict kvs => anyAtLeastP kvs (d - 1) s b dv

/-- Existential scan of a `VList`, mirroring the early-exit loop. -/
def anyAtLeastL : VList → Int → Nat → Nat → Bool → Bool
  | .nil, _, _, _, _ => false
  | .cons x rest, d, s, b, dv =>
      is_depth_at_least x d s b dv || anyAtLeastL rest d s b dv

/-- Existential scan of the iterated side of a dict's pairs. -/
def anyAtLeastP : VPairs → Int → Nat → Nat → Bool → Bool
  | .nil, _, _, _, _ => false
  | .cons k v rest, d, s, b, dv =>
      (if dv then is_depth_at_least v d s b dv else is_depth_at_least k d s b dv)
        || anyAtLeastP rest d s b dv

end

/-- `UnwrapPolicy` from `preparation/depth.py`. -/
inductive UnwrapPolicy : Type where
  | strict : UnwrapPolicy
  | ignoreExtra : UnwrapPolicy
  | merge : UnwrapPolicy
  | errorOnExtra : UnwrapPolicy
deriving DecidableEq

/-- The `ValueError`/`TypeError` exceptions of the library, as structured data:
invalid (negative) target depth, unwrapping a non-container, unwrapping an
empty container (IGNORE_EXTRA), a STRICT/ERROR_ON_EXTRA unwrap that found
`n ≠ 1` items, the structural mismatch raised by `_fix_exact_depth`, and the
"Cannot reduce depth from cur to tgt" wrapper around an unwrap failure. -/
inductive DepthError : Type where
  | invalidArgument : DepthError
  | nonContainerUnwrap : DepthError
  | emptyContainerUnwrap : DepthError
  | ambiguousUnwrap : Nat → DepthError
  | structuralMismatch : Nat → DepthError
  | reduceDepth : Nat → Nat → DepthError → DepthError
deriving DecidableEq

/-- `_wrap_to_depth`: wrap `x` in `layers` singleton lists. -/
def wrap_to_depth : Val → Nat → Val
  | x, 0 => x
  | x, k + 1 => wrap_to_depth (.list (.cons x .nil)) k

mutual

/-- `_ensure_depth_inside_out` from `preparation/depth.py`: at target 0 return
the value verbatim; strings/bytes follow their configured leaf depth; other
non-containers are wrapped `depth` times; a strict container is rebuilt as a
list of its children each normalized to `depth - 1` (dicts contribute their
keys). -/
def ensure_depth_inside_out : Val → Nat → Nat → Nat → Val
  | x, 0, _, _ => x
  | .str t, d + 1, s, _ =>
      if s = 0 then wrap_to_depth (.str t) (d + 1)
      else if d = 0 then .str t
      else wrap_to_depth (.str t) d
  | .bytes t, d + 1, _, b =>
      if b = 0 then wrap_to_depth (.bytes t) (d + 1)
      else if d = 0 then .bytes t
      else wrap_to_depth (.bytes t) d
  | .int n, d + 1, _, _ => wrap_to_depth (.int n) (d + 1)
  | .list xs, d + 1, s, b => .list (insideOutL xs d s b)
  | .tup xs, d + 1, s, b => .list (insideOutL xs d s b)
  | .set xs, d + 1, s, b => .list (insideOutL xs d s b)
  | .dict kvs, d + 1, s, b => .list (insideOutP kvs d s b)

/-- Children of a container processed by `_ensure_depth_inside_out`. -/
def insideOutL : VList → Nat → Nat → Nat → VList
  | .nil, _, _, _ => .nil
  | .cons x rest, d, s, b =>
      .cons (ensure_depth_inside_out x d s b) (insideOutL rest d s b)

/-- Keys of a dict processed by `_ensure_depth_inside_out`. -/
def insideOutP : VPairs → Nat → Nat → Nat → VList
  | .nil, _, _, _ => .nil
  | .cons k _ rest, d, s, b =>
      .cons (ensure_depth_inside_out k d s b) (insideOutP rest d s b)

end

/-- The flattening loop of the MERGE branch of `_unwrap_one_layer`: container
children are spliced in, other children are appended verbatim. -/
def mergeElems : VList → VList
  | .nil => .nil
  | .cons it rest =>
      (if is_strict_container it then elems it else .cons it .nil).append
        (mergeElems rest)

/-- `_unwrap_one_layer` from `preparation/depth.py`. -/
def unwrap_one_layer (x : Val) (p : UnwrapPolicy) : Except DepthError Val :=
  if is_strict_container x = false then
    .error .nonContainerUnwrap
  else
    match p with
    | .strict | .errorOnExtra =>
      match elems x with
      | .cons e .nil => .ok e
      | es => .error (.ambiguousUnwrap es.length)
    | .ignoreExtra =>
      match elems x with
      | .nil => .error .emptyContainerUnwrap
      | .cons e _ => .ok e
    | .merge => .ok (.list (mergeElems (elems x)))

/-- `_unwrap_to_depth`: remove `layers` outermost layers one at a time. -/
def unwrap_to_depth : Val → Nat → UnwrapPolicy → Except DepthError Val
  | x, 0, _ => .ok x
  | x, k + 1, p =>
    match unwrap_one_layer x p with
    | .ok y => unwrap_to_depth y k p
    | .error e => .error e

mutual

/-- `_fix_exact_depth` from `preparation/depth.py`: at depth 0 return the
value; a string/bytes leaf is accepted exactly at depth 1 with configured
depth 1; any other non-container is a structural mismatch; containers are
rebuilt as lists with every child fixed at `depth - 1`. -/
def fix_exact_depth : Val → Nat → Nat → Nat → Except DepthError Val
  | x, 0, _, _ => .ok x
  | .str t, d + 1, s, _ =>
      if s = 1 ∧ d = 0 then .ok (.str t) else .error (.structuralMismatch (d + 1))
  | .bytes t, d + 1, _, b =>
      if b = 1 ∧ d = 0 then .ok (.bytes t) else .error (.structuralMismatch (d + 1))
  | .int _, d + 1, _, _ => .error (.structuralMismatch (d + 1))
  | .list xs, d + 1, s, b =>
    match fixL xs d s b with
    | .ok ys => .ok (.list ys)
    | .error e => .error e
  | .tup xs, d + 1, s, b =>
    match fixL xs d s b with
    | .ok ys => .ok (.list ys)
    | .error e => .error e
  | .set xs, d + 1, s, b =>
    match fixL xs d s b with
    | .ok ys => .ok (.list ys)
    | .error e => .error e
  | .dict kvs, d + 1, s, b =>
    match fixP kvs d s b with
    | .ok ys => .ok (.list ys)
    | .error e => .error e

/-- The list comprehension inside `_fix_exact_depth`, failing at the first
offending child. -/
def fixL : VList → Nat → Nat → Nat → Except DepthError VList
  | .nil, _, _, _ => .ok .nil
  | .cons x rest, d, s, b =>
    match fix_exact_depth x d s b with
    | .error e => .error e
    | .ok y =>
      match fixL rest d s b with
      | .error e => .error e
      | .ok ys => .ok (.cons y ys)

/-- The same comprehension over the keys of a dict. -/
def fixP : VPairs → Nat → Nat → Nat → Except DepthError VList
  | .nil, _, _, _ => .ok .nil
  | .cons k _ rest, d, s, b =>
    match fix_exact_depth k d s b with
    | .error e => .error e
    | .ok y =>
      match fixP rest d s b with
      | .error e => .error e
      | .ok ys => .ok (.cons y ys)

end

/-- `_ensure_depth_outside_in`: measure once, then wrap, unwrap (wrapping any
unwrap failure in a reduce-depth error), or re-validate at exact depth. -/
def ensure_depth_outside_in (x : Val) (depth : Nat) (dv : Bool) (p : UnwrapPolicy)
    (s b : Nat) : Except DepthError Val :=
  let cur := get_max_depth x s b dv
  if cur < depth then .ok (wrap_to_depth x (depth - cur))
  else if depth < cur then
    match unwrap_to_depth x (cur - depth) p with
    | .ok r => .ok r
    | .error e => .error (.reduceDepth cur depth e)
  else fix_exact_depth x depth s b

/-- `ensure_uniform_depth` from `preparation/depth.py`.  `depth` is a Python
integer, rejected when negative; in inside-out mode the unwrap policy and the
dict-values flag are not consulted. -/
def ensure_uniform_depth (x : Val) (depth : Int) (inside_out dv : Bool)
    (p : UnwrapPolicy) (s b : Nat) : Except DepthError Val :=
  if depth < 0 then .error .invalidArgument
  else if inside_out then .ok (ensure_depth_inside_out x depth.toNat s b)
  else ensure_depth_outside_in x depth.toNat dv p s b

/-- A depth specification for the decorator layer (`Numerable` in
`preparation/args_depth.py`): a plain int, a list of per-index depths, or an
explicit index-to-depth mapping. -/
inductive DepthSpec : Type where
  | int : Int → DepthSpec
  | list : List Int → DepthSpec
  | dict : List (Nat × Int) → DepthSpec

/-- Python dict lookup `depth_map[i]` (with `i in depth_map` as `isSome`). -/
def lookupDepth (m : List (Nat × Int)) (i : Nat) : Option Int :=
  match m.find? (fun q => q.1 == i) with
  | some q => some q.2
  | none => none

/-- `_normalize_depth_spec` from `preparation/args_depth.py`: an int maps every
index below `num_args` to that depth, a list enumerates its entries, a dict is
used verbatim. -/
def normalize_depth_spec : DepthSpec → Nat → List (Nat × Int)
  | .int d, n => (List.range n).map (fun i => (i, d))
  | .list ds, _ => ds.enum
  | .dict m, _ => m

/-- The argument-coercion loop of `enforce_asterisk_args_uniform_depth`:
every positional argument is normalized to the same depth, the first failure
propagating. -/
def coerceArgsUniform (d : Int) (io dv : Bool) (p : UnwrapPolicy) (s b : Nat) :
    List Val → Except DepthError (List Val)
  | [] => .ok []
  | a :: rest =>
    match ensure_uniform_depth a d io dv p s b with
    | .error e => .error e
    | .ok a' =>
      match coerceArgsUniform d io dv p s b rest with
      | .error e => .error e
      | .ok rest' => .ok (a' :: rest')

/-- The argument-coercion loop of the general path of
`enforce_asterisk_args_depth`: the argument at index `i` is normalized to
`depth_map[i]` when present and passed through untouched otherwise. -/
def coerceArgsFrom (m : List (Nat × Int)) (io dv : Bool) (p : UnwrapPolicy)
    (s b : Nat) : List Val → Nat → Except DepthError (List Val)
  | [], _ => .ok []
  | a :: rest, i =>
    match lookupDepth m i with
    | none =>
      match coerceArgsFrom m io dv p s b rest (i + 1) with
      | .error e => .error e
      | .ok rest' => .ok (a :: rest')
    | some t =>
      match ensure_uniform_depth a t io dv p s b with
      | .error e => .error e
      | .ok a' =>
        match coerceArgsFrom m io dv p s b rest (i + 1) with
        | .error e => .error e
        | .ok rest' => .ok (a' :: rest')

/-- The coercion performed per call by the decorator produced by
`enforce_asterisk_args_uniform_depth`. -/
def enforce_args_uniform_depth_coerce (d : Int) (io dv : Bool) (p : UnwrapPolicy)
    (s b : Nat) (args : List Val) : Except DepthError (List Val) :=
  coerceArgsUniform d io dv p s b args

/-- The coercion performed per call by the decorator produced by
`enforce_asterisk_args_depth`: a plain int delegates to the uniform-depth
decorator, the other specifications go through `_normalize_depth_spec` and the
index-driven loop. -/
def enforce_args_depth_coerce (spec : DepthSpec) (io dv : Bool) (p : UnwrapPolicy)
    (s b : Nat) (args : List Val) : Except DepthError (List Val) :=
  match spec with
  | .int d => enforce_args_uniform_depth_coerce d io dv p s b args
  | .list ds => coerceArgsFrom (normalize_depth_spec (.list ds) args.length) io dv p s b args 0
  | .dict m => coerceArgsFrom (normalize_depth_spec (.dict m) args.length) io dv p s b args 0

/-- Invocation of the wrapped function on the coerced arguments: a coercion
failure leaves the function uninvoked. -/
def invokeWith (f : List Val → Val) : Except DepthError (List Val) → Except DepthError Val
  | .ok as => .ok (f as)
  | .error e => .error e

mutual

/-- Every strict container reachable through default iteration (dict values
instead of keys when `dv = true`) is non-empty. -/
def noEmpty : Val → Bool → Bool
  | .int _, _ => true
  | .str _, _ => true
  | .bytes _, _ => true
  | .list xs, dv => !xs.isNil && noEmptyL xs dv
  | .tup xs, dv => !xs.isNil && noEmptyL xs dv
  | .set xs, dv => !xs.isNil && noEmptyL xs dv
  | .dict kvs, dv => !kvs.isNil && noEmptyP kvs dv

/-- `noEmpty` for every element of a `VList`. -/
def noEmptyL : VList → Bool → Bool
  | .nil, _ => true
  | .cons x rest, dv => noEmpty x dv && noEmptyL rest dv

/-- `noEmpty` for the iterated side of every pair. -/
def noEmptyP : VPairs → Bool → Bool
  | .nil, _ => true
  | .cons k v rest, dv =>
      (if dv then noEmpty v dv else noEmpty k dv) && noEmptyP rest dv

end

mutual

/-- Uniform nesting to an exact depth, written from the specification's words:
at depth 0 anything qualifies; at positive depth a string/bytes leaf qualifies
exactly at depth 1 with configured leaf depth 1, and a strict container
qualifies iff every iterated child (keys, for a dict) is uniform one level
down.  This is the success predicate claimed for outside-in exact-depth
validation. -/
def uniformShape : Val → Nat → Nat → Nat → Bool
  | _, 0, _, _ => true
  | .str _, d + 1, s, _ => decide (s = 1) && decide (d = 0)
  | .bytes _, d + 1, _, b => decide (b = 1) && decide (d = 0)
  | .int _, _ + 1, _, _ => false
  | .list xs, d + 1, s, b => uniformShapeL xs d s b
  | .tup xs, d + 1, s, b => uniformShapeL xs d s b
  | .set xs, d + 1, s, b => uniformShapeL xs d s b
  | .dict kvs, d + 1, s, b => uniformShapeP kvs d s b

/-- `uniformShape` for every element of a `VList`. -/
def uniformShapeL : VList → Nat → Nat → Nat → Bool
  | .nil, _, _, _ => true
  | .cons x rest, d, s, b => uniformShape x d s b && uniformShapeL rest d s b

/-- `uniformShape` for every key of a dict. -/
def uniformShapeP : VPairs → Nat → Nat → Nat → Bool
  | .nil, _, _, _ => true
  | .cons k _ rest, d, s, b => uniformShape k d s b && uniformShapeP rest d s b

end

/-- Simultaneous structural induction over `Val`, `VList` and `VPairs`. -/
theorem val_mutual_induction (P : Val → Prop) (Q : VList → Prop) (R : VPairs → Prop)
    (hi : ∀ n, P (Val.int n)) (hs : ∀ t, P (Val.str t)) (hb : ∀ t, P (Val.bytes t))
    (hl : ∀ xs, Q xs → P (Val.list xs)) (ht : ∀ xs, Q xs → P (Val.tup xs))
    (hse : ∀ xs, Q xs → P (Val.set xs)) (hd : ∀ kvs, R kvs → P (Val.dict kvs))
    (hn : Q VList.nil) (hc : ∀ x rest, P x → Q rest → Q (VList.cons x rest))
    (hpn : R VPairs.nil) (hpc : ∀ k v rest, P k → P v → R rest → R (VPairs.cons k v rest)) :
    (∀ x, P x) ∧ (∀ l, Q l) ∧ (∀ kv, R kv) :=
  ⟨fun x => @Val.rec P Q R hi hs hb hl ht hse hd hn hc hpn hpc x,
   fun l => @VList.rec P Q R hi hs hb hl ht hse hd hn hc hpn hpc l,
   fun kv => @VPairs.rec P Q R hi hs hb hl ht hse hd hn hc hpn hpc kv⟩

/-! ## Basic lemmas about the embedding -/

theorem wrap_to_depth_succ (x : Val) (k : Nat) :
    wrap_to_depth x (k + 1) = .list (.cons (wrap_to_depth x k) .nil) := by
  induction k generalizing x with
  | zero => rfl
  | succ k ih =>
    show wrap_to_depth (.list (.cons x .nil)) (k + 1) = _
    rw [ih]
    rfl

theorem get_max_depth_wrap (x : Val) (k s b : Nat) (dv : Bool) :
    get_max_depth (wrap_to_depth x k) s b dv = k + get_max_depth x s b dv := by
  induction k with
  | zero => simp [wrap_to_depth]
  | succ k ih =>
    rw [wrap_to_depth_succ]
    simp [get_max_depth, maxDepthL, ih]
    omega

theorem maxDepthP_eq_keys : ∀ (kvs : VPairs) (s b : Nat),
    maxDepthP kvs s b false = maxDepthL (VPairs.keys kvs) s b false
  | .nil, _, _ => rfl
  | .cons k v rest, s, b => by
      simp [maxDepthP, VPairs.keys, maxDepthL, maxDepthP_eq_keys rest]

theorem noEmptyP_eq_keys : ∀ (kvs : VPairs),
    noEmptyP kvs false = noEmptyL (VPairs.keys kvs) false
  | .nil => rfl
  | .cons k v rest => by
      simp [noEmptyP, VPairs.keys, noEmptyL, noEmptyP_eq_keys rest]

/-- A strict container's measured depth (over keys, for a dict) is one more
than the maximum depth of its default-iteration elements. -/
theorem get_max_depth_container (x : Val) (s b : Nat)
    (h : is_strict_container x = true) :
    get_max_depth x s b false = 1 + maxDepthL (elems x) s b false := by
  cases x with
  | int n => simp [is_strict_container] at h
  | str t => simp [is_strict_container] at h
  | bytes t => simp [is_strict_container] at h
  | list xs => rfl
  | tup xs => rfl
  | set xs => rfl
  | dict kvs => simp [get_max_depth, elems, maxDepthP_eq_keys]

/-- A value measured strictly positive with atomic string/bytes settings is a
strict container. -/
theorem pos_depth_container (x : Val) (dv : Bool)
    (h : 1 ≤ get_max_depth x 0 0 dv) : is_strict_container x = true := by
  cases x with
  | int n => simp [get_max_depth] at h
  | str t => simp [get_max_depth] at h
  | bytes t => simp [get_max_depth] at h
  | list xs => rfl
  | tup xs => rfl
  | set xs => rfl
  | dict kvs => rfl

/-! ## Claim C2 -/

/-- C2 counterexample: `get_max_depth` on the empty list returns 1, not 0 as
claimed (the code computes `1 + max(children, default 0)` even when there are
no children). -/
theorem C2_counterexample : ¬ (get_max_depth (.list .nil) 0 0 false = 0) := by
  decide

/-- C2 (amended): for every empty strict container (empty list, tuple, set or
dict) and every configuration, `get_max_depth` returns 1, not 0. -/
theorem C2_amended_empty_container_depth_one (c : Val) (s b : Nat) (dv : Bool)
    (hc : is_strict_container c = true) (he : elems c = .nil) :
    get_max_depth c s b dv = 1 := by
  cases c with
  | int n => simp [is_strict_container] at hc
  | str t => simp [is_strict_container] at hc
  | bytes t => simp [is_strict_container] at hc
  | list xs => rw [elems] at he; rw [he]; rfl
  | tup xs => rw [elems] at he; rw [he]; rfl
  | set xs => rw [elems] at he; rw [he]; rfl
  | dict kvs =>
    cases kvs with
    | nil => cases dv <;> rfl
    | cons k v rest => rw [elems, VPairs.keys] at he; exact VList.noConfusion he

/-- C2 witness: the amended theorem evaluated on the empty list. -/
theorem C2_amended_witness :
    is_strict_container (.list .nil) = true ∧ elems (.list .nil) = .nil ∧
      get_max_depth (.list .nil) 0 0 false = 1 :=
  ⟨rfl, rfl, C2_amended_empty_container_depth_one (.list .nil) 0 0 false rfl rfl⟩

/-! ## Claim C5 -/

/-- C5: reducing `[[1],[2],[3]]` to depth 1 outside-in yields `[1]` under
IGNORE_EXTRA, `[1,2,3]` under MERGE, and an ambiguous-unwrap error reporting
3 items (wrapped in the reduce-depth context from 2 to 1) under STRICT. -/
theorem C5_policy_divergence :
    ensure_uniform_depth
        (.list (.cons (.list (.cons (.int 1) .nil))
          (.cons (.list (.cons (.int 2) .nil))
            (.cons (.list (.cons (.int 3) .nil)) .nil)))) 1 false false
        .ignoreExtra 0 0 = .ok (.list (.cons (.int 1) .nil)) ∧
    ensure_uniform_depth
        (.list (.cons (.list (.cons (.int 1) .nil))
          (.cons (.list (.cons (.int 2) .nil))
            (.cons (.list (.cons (.int 3) .nil)) .nil)))) 1 false false
        .merge 0 0 = .ok (.list (.cons (.int 1) (.cons (.int 2) (.cons (.int 3) .nil)))) ∧
    ensure_uniform_depth
        (.list (.cons (.list (.cons (.int 1) .nil))
          (.cons (.list (.cons (.int 2) .nil))
            (.cons (.list (.cons (.int 3) .nil)) .nil)))) 1 false false
        .strict 0 0 = .error (.reduceDepth 2 1 (.ambiguousUnwrap 3)) :=
  ⟨rfl, rfl, rfl⟩

/-! ## Claim C7 -/

/-- C7 counterexample: under the MERGE policy, removing a layer from the empty
list does not fail at all — `ensure_uniform_depth([], 0, MERGE)` succeeds
(returning a new empty sequence), contradicting the claim that every policy
fails with an empty-container error. -/
theorem C7_counterexample :
    ¬ ∃ e, ensure_uniform_depth (.list .nil) 0 false false .merge 0 0 = .error e := by
  rintro ⟨e, h⟩
  rw [show ensure_uniform_depth (Val.list VList.nil) 0 false false .merge 0 0
      = .ok (.list .nil) from rfl] at h
  exact Except.noConfusion h

/-- C7 (amended): removing a layer from an empty strict container fails under
STRICT and ERROR_ON_EXTRA with an item-count error reporting 0 items, fails
under IGNORE_EXTRA with the empty-container error, and succeeds under MERGE,
returning a new empty sequence. -/
theorem C7_amended_empty_layer_behavior (x : Val)
    (hc : is_strict_container x = true) (he : elems x = .nil) :
    unwrap_one_layer x .strict = .error (.ambiguousUnwrap 0) ∧
    unwrap_one_layer x .errorOnExtra = .error (.ambiguousUnwrap 0) ∧
    unwrap_one_layer x .ignoreExtra = .error .emptyContainerUnwrap ∧
    unwrap_one_layer x .merge = .ok (.list .nil) := by
  refine ⟨?_, ?_, ?_, ?_⟩ <;>
    · unfold unwrap_one_layer
      rw [hc, he]
      rfl

/-- C7 witness: the amended theorem evaluated on the empty list. -/
theorem C7_amended_witness :
    is_strict_container (.list .nil) = true ∧ elems (.list .nil) = .nil ∧
      unwrap_one_layer (.list .nil) .merge = .ok (.list .nil) :=
  ⟨rfl, rfl, (C7_amended_empty_layer_behavior (.list .nil) rfl rfl).2.2.2⟩

/-! ## Claim C10 -/

/-- C10: in inside-out mode the unwrap policy and the dict-values flag are
never consulted: two calls differing only in those parameters return
identical results (including the rejection of a negative depth). -/
theorem C10_inside_out_ignores_policy (x : Val) (d : Int) (s b : Nat)
    (p₁ p₂ : UnwrapPolicy) (dv₁ dv₂ : Bool) :
    ensure_uniform_depth x d true dv₁ p₁ s b
      = ensure_uniform_depth x d true dv₂ p₂ s b := by
  unfold ensure_uniform_depth
  split
  · rfl
  · rfl

/-! ## Counterexamples to C1, C3 and C6 -/

/-- C1 counterexample: on the empty list with depth 1, `is_depth_at_least`
returns `False` (no child can witness the required depth) while
`get_max_depth` returns 1, so `get_max_depth >= 1` holds — the two functions
genuinely differ in result, not just in short-circuit timing. -/
theorem C1_counterexample :
    ¬ (is_depth_at_least (.list .nil) 1 0 0 false = true ↔
        (1 : Int) ≤ (get_max_depth (.list .nil) 0 0 false : Int)) := by
  intro h
  have h1 : (1 : Int) ≤ (get_max_depth (Val.list VList.nil) 0 0 false : Int) := by
    decide
  exact absurd (h.mpr h1) (by decide)

/-- C3 counterexample: with target depth 0, inside-out mode returns the value
verbatim, so `ensure_uniform_depth([1], 0, inside_out=True)` returns `[1]`
whose measured depth is 1, not 0. -/
theorem C3_counterexample :
    ¬ (∀ r, ensure_uniform_depth (.list (.cons (.int 1) .nil)) 0 true false .strict 0 0
          = .ok r → get_max_depth r 0 0 false = 0) := by
  intro h
  exact absurd (h (.list (.cons (.int 1) .nil)) rfl) (by decide)

/-- C6 counterexample: `get_max_depth([]) = 1 > 0`, and the MERGE reduction of
`[]` to target depth 0 succeeds returning `[]` — whose measured depth is
still 1, not 0: the merged rebuild re-adds the layer it removed. -/
theorem C6_counterexample :
    ¬ (0 < get_max_depth (.list .nil) 0 0 false →
        ∀ r, ensure_uniform_depth (.list .nil) 0 false false .merge 0 0 = .ok r →
          get_max_depth r 0 0 false = 0) := by
  intro h
  exact absurd (h (by decide) (.list .nil) rfl) (by decide)

theorem vlist_not_isNil_iff : ∀ l : VList, (!l.isNil) = true ↔ l ≠ .nil
  | .nil => by simp [VList.isNil]
  | .cons x l => by simp [VList.isNil]

theorem vpairs_not_isNil_iff : ∀ kv : VPairs, (!kv.isNil) = true ↔ kv ≠ .nil
  | .nil => by simp [VPairs.isNil]
  | .cons k v rest => by simp [VPairs.isNil]

/-- The equivalence underlying the corrected C1, proved simultaneously for
values, element lists and pair lists: on inputs whose traversed strict
containers are all non-empty, the short-circuiting predicate agrees with
comparing the measured maximum depth. -/
theorem depth_at_least_iff_aux :
    (∀ x : Val, ∀ (d : Int) (s b : Nat) (dv : Bool), noEmpty x dv = true →
        (is_depth_at_least x d s b dv = true ↔ d ≤ (get_max_depth x s b dv : Int))) ∧
    (∀ l : VList, ∀ (d : Int) (s b : Nat) (dv : Bool), noEmptyL l dv = true → l ≠ .nil →
        (anyAtLeastL l d s b dv = true ↔ d ≤ (maxDepthL l s b dv : Int))) ∧
    (∀ kv : VPairs, ∀ (d : Int) (s b : Nat) (dv : Bool), noEmptyP kv dv = true → kv ≠ .nil →
        (anyAtLeastP kv d s b dv = true ↔ d ≤ (maxDepthP kv s b dv : Int))) := by
  refine val_mutual_induction _ _ _ ?_ ?_ ?_ ?_ ?_ ?_ ?_ ?_ ?_ ?_ ?_
  · intro n d s b dv _
    simp only [is_depth_at_least, get_max_depth]
    by_cases hd : d ≤ 0 <;> simp [hd]
  · intro t d s b dv _
    simp only [is_depth_at_least, get_max_depth]
    by_cases hd : d ≤ 0
    · simp [hd]
      omega
    · simp [hd]
  · intro t d s b dv _
    simp only [is_depth_at_least, get_max_depth]
    by_cases hd : d ≤ 0
    · simp [hd]
      omega
    · simp [hd]
  · intro xs ihQ d s b dv h
    simp only [noEmpty, Bool.and_eq_true] at h
    obtain ⟨h1, h2⟩ := h
    simp only [is_depth_at_least, get_max_depth]
    by_cases hd : d ≤ 0
    · simp [hd]; omega
    · simp only [hd, if_false]
      rw [ihQ (d - 1) s b dv h2 ((vlist_not_isNil_iff xs).mp h1)]
      push_cast
      omega
  · intro xs ihQ d s b dv h
    simp only [noEmpty, Bool.and_eq_true] at h
    obtain ⟨h1, h2⟩ := h
    simp only [is_depth_at_least, get_max_depth]
    by_cases hd : d ≤ 0
    · simp [hd]; omega
    · simp only [hd, if_false]
      rw [ihQ (d - 1) s b dv h2 ((vlist_not_isNil_iff xs).mp h1)]
      push_cast
      omega
  · intro xs ihQ d s b dv h
    simp only [noEmpty, Bool.and_eq_true] at h
    obtain ⟨h1, h2⟩ := h
    simp only [is_depth_at_least, get_max_depth]
    by_cases hd : d ≤ 0
    · simp [hd]; omega
    · simp only [hd, if_false]
      rw [ihQ (d - 1) s b dv h2 ((vlist_not_isNil_iff xs).mp h1)]
      push_cast
      omega
  · intro kvs ihR d s b dv h
    simp only [noEmpty, Bool.and_eq_true] at h
    obtain ⟨h1, h2⟩ := h
    simp only [is_depth_at_least, get_max_depth]
    by_cases hd : d ≤ 0
    · simp [hd]; omega
    · simp only [hd, if_false]
      rw [ihR (d - 1) s b dv h2 ((vpairs_not_isNil_iff kvs).mp h1)]
      push_cast
      omega
  · intro d s b dv _ hne
    exact absurd rfl hne
  · intro x rest ihP ihQ d s b dv h _
    simp only [noEmptyL, Bool.and_eq_true] at h
    obtain ⟨h1, h2⟩ := h
    simp only [anyAtLeastL, maxDepthL, Bool.or_eq_true]
    rw [ihP d s b dv h1]
    cases rest with
    | nil => simp [anyAtLeastL, maxDepthL, Nat.max_zero]
    | cons y ys =>
      rw [ihQ d s b dv h2 (fun hh => VList.noConfusion hh)]
      push_cast
      rw [le_max_iff]
  · intro d s b dv _ hne
    exact absurd rfl hne
  · intro k v rest ihPk ihPv ihR d s b dv h _
    simp only [noEmptyP, Bool.and_eq_true] at h
    obtain ⟨h1, h2⟩ := h
    simp only [anyAtLeastP, maxDepthP, Bool.or_eq_true]
    cases dv with
    | false =>
      simp only [if_false, Bool.false_eq_true] at h1 ⊢
      rw [ihPk d s b false h1]
      cases rest with
      | nil => simp [anyAtLeastP, maxDepthP, Nat.max_zero]
      | cons k2 v2 ys =>
        rw [ihR d s b false h2 (fun hh => VPairs.noConfusion hh)]
        push_cast
        rw [le_max_iff]
    | true =>
      simp only [if_true] at h1 ⊢
      rw [ihPv d s b true h1]
      cases rest with
      | nil => simp [anyAtLeastP, maxDepthP, Nat.max_zero]
      | cons k2 v2 ys =>
        rw [ihR d s b true h2 (fun hh => VPairs.noConfusion hh)]
        push_cast
        rw [le_max_iff]

/-- C1 (amended): on every value whose traversed strict containers are all
non-empty, `is_depth_at_least(x, d, ...)` returns True iff
`get_max_depth(x, ...) >= d`, for every integer depth `d` and matching
configuration; on values containing an empty container the two functions can
disagree (see the counterexample). -/
theorem C1_amended_depth_at_least_iff_max (x : Val) (d : Int) (s b : Nat) (dv : Bool)
    (h : noEmpty x dv = true) :
    is_depth_at_least x d s b dv = true ↔ d ≤ (get_max_depth x s b dv : Int) :=
  depth_at_least_iff_aux.1 x d s b dv h

/-- C1 witness: the amended equivalence evaluated at `[5]` with depth 1. -/
theorem C1_amended_witness :
    noEmpty (.list (.cons (.int 5) .nil)) false = true ∧
      (is_depth_at_least (.list (.cons (.int 5) .nil)) 1 0 0 false = true ↔
        (1 : Int) ≤ (get_max_depth (.list (.cons (.int 5) .nil)) 0 0 false : Int)) :=
  ⟨rfl, C1_amended_depth_at_least_iff_max (.list (.cons (.int 5) .nil)) 1 0 0 false rfl⟩

/-- The depth post-condition of inside-out normalization underlying the
corrected C3, proved simultaneously for values, element lists and pair lists:
with leaf depths at most 1, no empty traversed container, and a target depth
at least the measured depth, the inside-out result measures exactly the
target. -/
theorem inside_out_depth_aux :
    (∀ x : Val, ∀ (d s b : Nat), s ≤ 1 → b ≤ 1 → noEmpty x false = true →
        get_max_depth x s b false ≤ d →
        get_max_depth (ensure_depth_inside_out x d s b) s b false = d) ∧
    (∀ l : VList, ∀ (d s b : Nat), s ≤ 1 → b ≤ 1 → noEmptyL l false = true →
        maxDepthL l s b false ≤ d → l ≠ .nil →
        maxDepthL (insideOutL l d s b) s b false = d) ∧
    (∀ kv : VPairs, ∀ (d s b : Nat), s ≤ 1 → b ≤ 1 → noEmptyP kv false = true →
        maxDepthP kv s b false ≤ d → kv ≠ .nil →
        maxDepthL (insideOutP kv d s b) s b false = d) := by
  refine val_mutual_induction _ _ _ ?_ ?_ ?_ ?_ ?_ ?_ ?_ ?_ ?_ ?_ ?_
  · intro n d s b _ _ _ _
    cases d with
    | zero => rfl
    | succ m =>
      simp [ensure_depth_inside_out, get_max_depth_wrap, get_max_depth]
  · intro t d s b hs1 _ _ hle
    simp only [get_max_depth] at hle
    cases d with
    | zero =>
      simp only [ensure_depth_inside_out, get_max_depth]
      omega
    | succ m =>
      by_cases hs0 : s = 0
      · simp [ensure_depth_inside_out, hs0, get_max_depth_wrap, get_max_depth]
      · have hs1' : s = 1 := by omega
        subst hs1'
        by_cases hm : m = 0
        · subst hm
          simp [ensure_depth_inside_out, get_max_depth]
        · simp [ensure_depth_inside_out, hm, get_max_depth_wrap, get_max_depth]
  · intro t d s b _ hb1 _ hle
    simp only [get_max_depth] at hle
    cases d with
    | zero =>
      simp only [ensure_depth_inside_out, get_max_depth]
      omega
    | succ m =>
      by_cases hb0 : b = 0
      · simp [ensure_depth_inside_out, hb0, get_max_depth_wrap, get_max_depth]
      · have hb1' : b = 1 := by omega
        subst hb1'
        by_cases hm : m = 0
        · subst hm
          simp [ensure_depth_inside_out, get_max_depth]
        · simp [ensure_depth_inside_out, hm, get_max_depth_wrap, get_max_depth]
  · intro xs ihQ d s b hs1 hb1 h hle
    simp only [noEmpty, Bool.and_eq_true] at h
    obtain ⟨h1, h2⟩ := h
    simp only [get_max_depth] at hle
    cases d with
    | zero => omega
    | succ m =>
      simp only [ensure_depth_inside_out, get_max_depth]
      rw [ihQ m s b hs1 hb1 h2 (by omega) ((vlist_not_isNil_iff xs).mp h1)]
      omega
  · intro xs ihQ d s b hs1 hb1 h hle
    simp only [noEmpty, Bool.and_eq_true] at h
    obtain ⟨h1, h2⟩ := h
    simp only [get_max_depth] at hle
    cases d with
    | zero => omega
    | succ m =>
      simp only [ensure_depth_inside_out, get_max_depth]
      rw [ihQ m s b hs1 hb1 h2 (by omega) ((vlist_not_isNil_iff xs).mp h1)]
      omega
  · intro xs ihQ d s b hs1 hb1 h hle
    simp only [noEmpty, Bool.and_eq_true] at h
    obtain ⟨h1, h2⟩ := h
    simp only [get_max_depth] at hle
    cases d with
    | zero => omega
    | succ m =>
      simp only [ensure_depth_inside_out, get_max_depth]
      rw [ihQ m s b hs1 hb1 h2 (by omega) ((vlist_not_isNil_iff xs).mp h1)]
      omega
  · intro kvs ihR d s b hs1 hb1 h hle
    simp only [noEmpty, Bool.and_eq_true] at h
    obtain ⟨h1, h2⟩ := h
    simp only [get_max_depth] at hle
    cases d with
    | zero => omega
    | succ m =>
      simp only [ensure_depth_inside_out, get_max_depth]
      rw [ihR m s b hs1 hb1 h2 (by omega) ((vpairs_not_isNil_iff kvs).mp h1)]
      omega
  · intro d s b _ _ _ _ hne
    exact absurd rfl hne
  · intro x rest ihP ihQ d s b hs1 hb1 h hle _
    simp only [noEmptyL, Bool.and_eq_true] at h
    obtain ⟨h1, h2⟩ := h
    simp only [maxDepthL] at hle
    simp only [insideOutL, maxDepthL]
    rw [ihP d s b hs1 hb1 h1 (le_trans (le_max_left _ _) hle)]
    cases rest with
    | nil => simp [insideOutL, maxDepthL]
    | cons y ys =>
      rw [ihQ d s b hs1 hb1 h2 (le_trans (le_max_right _ _) hle)
        (fun hh => VList.noConfusion hh)]
      simp
  · intro d s b _ _ _ _ hne
    exact absurd rfl hne
  · intro k v rest ihPk _ ihR d s b hs1 hb1 h hle _
    simp only [noEmptyP, if_false, Bool.and_eq_true] at h
    obtain ⟨h1, h2⟩ := h
    simp only [maxDepthP, if_false] at hle
    simp only [insideOutP, maxDepthL]
    rw [ihPk d s b hs1 hb1 h1 (le_trans (le_max_left _ _) hle)]
    cases rest with
    | nil => simp [insideOutP, maxDepthL]
    | cons k2 v2 ys =>
      rw [ihR d s b hs1 hb1 h2 (le_trans (le_max_right _ _) hle)
        (fun hh => VPairs.noConfusion hh)]
      simp

/-- C3 (amended): the inside-out depth post-condition
`get_max_depth(ensure_uniform_depth(v, d, inside_out=True), ...) = d` holds
whenever the configured leaf depths are in {0,1}, the value contains no empty
strict container, and `d` is at least the value's measured depth; without
those provisos it fails (see the counterexample). -/
theorem C3_amended_inside_out_depth (x : Val) (d s b : Nat) (dv : Bool)
    (p : UnwrapPolicy) (hs1 : s ≤ 1) (hb1 : b ≤ 1) (hne : noEmpty x false = true)
    (hle : get_max_depth x s b false ≤ d) :
    ∃ r, ensure_uniform_depth x (d : Int) true dv p s b = .ok r ∧
      get_max_depth r s b false = d := by
  refine ⟨ensure_depth_inside_out x d s b, ?_, ?_⟩
  · unfold ensure_uniform_depth
    have hd0 : ¬ ((d : Int) < 0) := by omega
    simp [hd0]
  · exact inside_out_depth_aux.1 x d s b hs1 hb1 hne hle

/-- C3 witness: the amended post-condition evaluated at the atom `7` with
target depth 2. -/
theorem C3_amended_witness :
    ∃ r, ensure_uniform_depth (.int 7) (2 : Int) true false .strict 0 0 = .ok r ∧
      get_max_depth r 0 0 false = 2 :=
  C3_amended_inside_out_depth (.int 7) 2 0 0 false .strict (by decide) (by decide)
    rfl (by decide)

/-- Success of `_fix_exact_depth` is equivalent to uniform nesting at the
target depth, proved simultaneously for values, element lists and pair
lists. -/
theorem fix_ok_iff_uniform :
    (∀ x : Val, ∀ (d s b : Nat),
        (∃ r, fix_exact_depth x d s b = .ok r) ↔ uniformShape x d s b = true) ∧
    (∀ l : VList, ∀ (d s b : Nat),
        (∃ ys, fixL l d s b = .ok ys) ↔ uniformShapeL l d s b = true) ∧
    (∀ kv : VPairs, ∀ (d s b : Nat),
        (∃ ys, fixP kv d s b = .ok ys) ↔ uniformShapeP kv d s b = true) := by
  refine val_mutual_induction _ _ _ ?_ ?_ ?_ ?_ ?_ ?_ ?_ ?_ ?_ ?_ ?_
  · intro n d s b
    cases d with
    | zero => simp [fix_exact_depth, uniformShape]
    | succ m => simp [fix_exact_depth, uniformShape]
  · intro t d s b
    cases d with
    | zero => simp [fix_exact_depth, uniformShape]
    | succ m =>
      by_cases hs' : s = 1
      · by_cases hm : m = 0
        · subst hs'
          subst hm
          simp [fix_exact_depth, uniformShape]
        · simp [fix_exact_depth, uniformShape, hs', hm]
      · simp [fix_exact_depth, uniformShape, hs']
  · intro t d s b
    cases d with
    | zero => simp [fix_exact_depth, uniformShape]
    | succ m =>
      by_cases hb' : b = 1
      · by_cases hm : m = 0
        · subst hb'
          subst hm
          simp [fix_exact_depth, uniformShape]
        · simp [fix_exact_depth, uniformShape, hb', hm]
      · simp [fix_exact_depth, uniformShape, hb']
  · intro xs ihQ d s b
    cases d with
    | zero => simp [fix_exact_depth, uniformShape]
    | succ m =>
      simp only [fix_exact_depth, uniformShape]
      rw [← ihQ m s b]
      cases hfx : fixL xs m s b with
      | ok ys => simp
      | error e => simp
  · intro xs ihQ d s b
    cases d with
    | zero => simp [fix_exact_depth, uniformShape]
    | succ m =>
      simp only [fix_exact_depth, uniformShape]
      rw [← ihQ m s b]
      cases hfx : fixL xs m s b with
      | ok ys => simp
      | error e => simp
  · intro xs ihQ d s b
    cases d with
    | zero => simp [fix_exact_depth, uniformShape]
    | succ m =>
      simp only [fix_exact_depth, uniformShape]
      rw [← ihQ m s b]
      cases hfx : fixL xs m s b with
      | ok ys => simp
      | error e => simp
  · intro kvs ihR d s b
    cases d with
    | zero => simp [fix_exact_depth, uniformShape]
    | succ m =>
      simp only [fix_exact_depth, uniformShape]
      rw [← ihR m s b]
      cases hfx : fixP kvs m s b with
      | ok ys => simp
      | error e => simp
  · intro d s b
    simp [fixL, uniformShapeL]
  · intro x rest ihP ihQ d s b
    simp only [fixL, uniformShapeL]
    rw [Bool.and_eq_true, ← ihP d s b, ← ihQ d s b]
    cases hfx : fix_exact_depth x d s b with
    | error e => simp
    | ok y =>
      cases hfr : fixL rest d s b with
      | error e => simp
      | ok ys => simp
  · intro d s b
    simp [fixP, uniformShapeP]
  · intro k v rest ihPk _ ihR d s b
    simp only [fixP, uniformShapeP]
    rw [Bool.and_eq_true, ← ihPk d s b, ← ihR d s b]
    cases hfx : fix_exact_depth k d s b with
    | error e => simp
    | ok y =>
      cases hfr : fixP rest d s b with
      | error e => simp
      | ok ys => simp

/-- Every failure of `_fix_exact_depth` is a structural-mismatch error. -/
theorem fix_error_structural :
    (∀ x : Val, ∀ (d s b : Nat) (e : DepthError), fix_exact_depth x d s b = .error e →
        ∃ m, e = .structuralMismatch m) ∧
    (∀ l : VList, ∀ (d s b : Nat) (e : DepthError), fixL l d s b = .error e →
        ∃ m, e = .structuralMismatch m) ∧
    (∀ kv : VPairs, ∀ (d s b : Nat) (e : DepthError), fixP kv d s b = .error e →
        ∃ m, e = .structuralMismatch m) := by
  refine val_mutual_induction _ _ _ ?_ ?_ ?_ ?_ ?_ ?_ ?_ ?_ ?_ ?_ ?_
  · intro n d s b e he
    cases d with
    | zero => exact Except.noConfusion he
    | succ m =>
      simp only [fix_exact_depth, Except.error.injEq] at he
      exact ⟨m + 1, he.symm⟩
  · intro t d s b e he
    cases d with
    | zero => exact Except.noConfusion he
    | succ m =>
      by_cases hc : s = 1 ∧ m = 0
      · simp [fix_exact_depth, hc] at he
      · simp only [fix_exact_depth, if_neg hc, Except.error.injEq] at he
        exact ⟨m + 1, he.symm⟩
  · intro t d s b e he
    cases d with
    | zero => exact Except.noConfusion he
    | succ m =>
      by_cases hc : b = 1 ∧ m = 0
      · simp [fix_exact_depth, hc] at he
      · simp only [fix_exact_depth, if_neg hc, Except.error.injEq] at he
        exact ⟨m + 1, he.symm⟩
  · intro xs ihQ d s b e he
    cases d with
    | zero => exact Except.noConfusion he
    | succ m =>
      simp only [fix_exact_depth] at he
      cases hfx : fixL xs m s b with
      | ok ys => rw [hfx] at he; exact Except.noConfusion he
      | error e2 =>
        rw [hfx] at he
        simp only [Except.error.injEq] at he
        exact he ▸ ihQ m s b e2 hfx
  · intro xs ihQ d s b e he
    cases d with
    | zero => exact Except.noConfusion he
    | succ m =>
      simp only [fix_exact_depth] at he
      cases hfx : fixL xs m s b with
      | ok ys => rw [hfx] at he; exact Except.noConfusion he
      | error e2 =>
        rw [hfx] at he
        simp only [Except.error.injEq] at he
        exact he ▸ ihQ m s b e2 hfx
  · intro xs ihQ d s b e he
    cases d with
    | zero => exact Except.noConfusion he
    | succ m =>
      simp only [fix_exact_depth] at he
      cases hfx : fixL xs m s b with
      | ok ys => rw [hfx] at he; exact Except.noConfusion he
      | error e2 =>
        rw [hfx] at he
        simp only [Except.error.injEq] at he
        exact he ▸ ihQ m s b e2 hfx
  · intro kvs ihR d s b e he
    cases d with
    | zero => exact Except.noConfusion he
    | succ m =>
      simp only [fix_exact_depth] at he
      cases hfx : fixP kvs m s b with
      | ok ys => rw [hfx] at he; exact Except.noConfusion he
      | error e2 =>
        rw [hfx] at he
        simp only [Except.error.injEq] at he
        exact he ▸ ihR m s b e2 hfx
  · intro d s b e he
    exact Except.noConfusion he
  · intro x rest ihP ihQ d s b e he
    simp only [fixL] at he
    cases hfx : fix_exact_depth x d s b with
    | error e2 =>
      rw [hfx] at he
      simp only [Except.error.injEq] at he
      exact he ▸ ihP d s b e2 hfx
    | ok y =>
      rw [hfx] at he
      cases hfr : fixL rest d s b with
      | ok ys => rw [hfr] at he; exact Except.noConfusion he
      | error e2 =>
        rw [hfr] at he
        simp only [Except.error.injEq] at he
        exact he ▸ ihQ d s b e2 hfr
  · intro d s b e he
    exact Except.noConfusion he
  · intro k v rest ihPk _ ihR d s b e he
    simp only [fixP] at he
    cases hfx : fix_exact_depth k d s b with
    | error e2 =>
      rw [hfx] at he
      simp only [Except.error.injEq] at he
      exact he ▸ ihPk d s b e2 hfx
    | ok y =>
      rw [hfx] at he
      cases hfr : fixP rest d s b with
      | ok ys => rw [hfr] at he; exact Except.noConfusion he
      | error e2 =>
        rw [hfr] at he
        simp only [Except.error.injEq] at he
        exact he ▸ ihR d s b e2 hfr

/-- At a measured depth equal to the target, outside-in normalization is
exactly the exact-depth re-validation. -/
theorem ensure_outside_in_eq_fix (x : Val) (d : Nat) (dv : Bool) (p : UnwrapPolicy)
    (s b : Nat) (h : get_max_depth x s b dv = d) :
    ensure_depth_outside_in x d dv p s b = fix_exact_depth x d s b := by
  unfold ensure_depth_outside_in
  simp [h]

/-- C4: in outside-in mode, when the measured maximum depth equals the target
depth `d`, `ensure_uniform_depth` succeeds exactly when the value is uniformly
nested to depth `d` (every branch crossing `d` container layers, allowing a
string/bytes leaf matching its configured depth at the last layer), and on
any non-uniform value it fails with a structural-mismatch error. -/
theorem C4_exact_depth_validation (x : Val) (d s b : Nat) (dv : Bool)
    (p : UnwrapPolicy) (h : get_max_depth x s b dv = d) :
    ((∃ r, ensure_uniform_depth x (d : Int) false dv p s b = .ok r) ↔
      uniformShape x d s b = true) ∧
    (uniformShape x d s b = false →
      ∃ m, ensure_uniform_depth x (d : Int) false dv p s b
        = .error (.structuralMismatch m)) := by
  have hd0 : ¬ ((d : Int) < 0) := by omega
  have he : ensure_uniform_depth x (d : Int) false dv p s b
      = fix_exact_depth x d s b := by
    unfold ensure_uniform_depth
    rw [if_neg hd0]
    simpa using ensure_outside_in_eq_fix x d dv p s b h
  constructor
  · rw [he]
    exact fix_ok_iff_uniform.1 x d s b
  · intro hu
    rw [he]
    cases hfx : fix_exact_depth x d s b with
    | ok r =>
      have htrue := (fix_ok_iff_uniform.1 x d s b).mp ⟨r, hfx⟩
      rw [htrue] at hu
      exact Bool.noConfusion hu
    | error e =>
      obtain ⟨m, rfl⟩ := fix_error_structural.1 x d s b e hfx
      exact ⟨m, rfl⟩

/-- C4 witness: the validation theorem evaluated at `[[1], 2]` with target
depth 2, its measured maximum depth. -/
theorem C4_witness :
    get_max_depth (.list (.cons (.list (.cons (.int 1) .nil))
        (.cons (.int 2) .nil))) 0 0 false = 2 ∧
    (((∃ r, ensure_uniform_depth (.list (.cons (.list (.cons (.int 1) .nil))
        (.cons (.int 2) .nil))) (2 : Int) false false .strict 0 0 = .ok r) ↔
      uniformShape (.list (.cons (.list (.cons (.int 1) .nil))
        (.cons (.int 2) .nil))) 2 0 0 = true) ∧
    (uniformShape (.list (.cons (.list (.cons (.int 1) .nil))
        (.cons (.int 2) .nil))) 2 0 0 = false →
      ∃ m, ensure_uniform_depth (.list (.cons (.list (.cons (.int 1) .nil))
        (.cons (.int 2) .nil))) (2 : Int) false false .strict 0 0
          = .error (.structuralMismatch m))) :=
  ⟨rfl, C4_exact_depth_validation (.list (.cons (.list (.cons (.int 1) .nil))
    (.cons (.int 2) .nil))) 2 0 0 false .strict rfl⟩

theorem maxDepthL_append : ∀ (xs ys : VList) (s b : Nat) (dv : Bool),
    maxDepthL (xs.append ys) s b dv = max (maxDepthL xs s b dv) (maxDepthL ys s b dv)
  | .nil, ys, s, b, dv => by simp [VList.append, maxDepthL]
  | .cons x rest, ys, s, b, dv => by
      simp only [VList.append, maxDepthL]
      rw [maxDepthL_append rest ys s b dv, Nat.max_assoc]

/-- A non-container measures depth 0 with atomic string/bytes settings. -/
theorem atom_depth_zero (x : Val) (dv : Bool) (h : is_strict_container x = false) :
    get_max_depth x 0 0 dv = 0 := by
  cases x with
  | int n => rfl
  | str t => rfl
  | bytes t => rfl
  | list xs => simp [is_strict_container] at h
  | tup xs => simp [is_strict_container] at h
  | set xs => simp [is_strict_container] at h
  | dict kvs => simp [is_strict_container] at h

/-- One MERGE flattening step lowers the elementwise maximum depth by exactly
one (with atomic string/bytes settings; truncated subtraction covers the
all-atoms case).  A container child contributes its elements, whose maximum
depth is its own depth minus one — an empty child contributes nothing, but
then its depth 1 is never the strict maximum when some item reaches depth 2,
and below that the bound is met automatically. -/
theorem maxDepth_mergeElems : ∀ es : VList,
    maxDepthL (mergeElems es) 0 0 false = maxDepthL es 0 0 false - 1
  | .nil => rfl
  | .cons it rest => by
    simp only [mergeElems, maxDepthL]
    by_cases hc : is_strict_container it = true
    · rw [if_pos hc, maxDepthL_append, maxDepth_mergeElems rest]
      have hgc := get_max_depth_container it 0 0 hc
      omega
    · rw [if_neg hc, maxDepthL_append, maxDepth_mergeElems rest]
      have h0 : get_max_depth it 0 0 false = 0 :=
        atom_depth_zero it false (Bool.not_eq_true _ ▸ hc)
      simp only [maxDepthL]
      omega

/-- A single MERGE unwrap of any container of measured depth at least 2
succeeds and lowers the measured depth by exactly one. -/
theorem merge_step (x : Val) (hc : is_strict_container x = true)
    (hd : 2 ≤ get_max_depth x 0 0 false) :
    unwrap_one_layer x .merge = .ok (.list (mergeElems (elems x))) ∧
    get_max_depth (.list (mergeElems (elems x))) 0 0 false
      = get_max_depth x 0 0 false - 1 := by
  refine ⟨?_, ?_⟩
  · unfold unwrap_one_layer
    rw [hc]
    rfl
  · have hgc := get_max_depth_container x 0 0 hc
    simp only [get_max_depth]
    rw [maxDepth_mergeElems (elems x)]
    omega

/-- Iterated MERGE unwrapping: removing `k` layers from a value of measured
depth `k + d` (with `d ≥ 1`) succeeds and lands exactly on measured
depth `d`. -/
theorem merge_chain : ∀ (k : Nat) (x : Val) (d : Nat), 1 ≤ d →
    get_max_depth x 0 0 false = k + d →
    ∃ r, unwrap_to_depth x k .merge = .ok r ∧ get_max_depth r 0 0 false = d
  | 0, x, d, _, hgd => ⟨x, rfl, by omega⟩
  | k + 1, x, d, hd1, hgd => by
    have hc : is_strict_container x = true := pos_depth_container x false (by omega)
    obtain ⟨hu, hdep⟩ := merge_step x hc (by omega)
    obtain ⟨r, hr1, hr2⟩ :=
      merge_chain k (.list (mergeElems (elems x))) d hd1 (by rw [hdep]; omega)
    refine ⟨r, ?_, hr2⟩
    simp only [unwrap_to_depth]
    rw [hu]
    exact hr1

/-- C6 (amended): with default leaf settings, for every value `x` and every
target depth `d` with `1 ≤ d < get_max_depth(x)`, the outside-in MERGE
reduction succeeds and its result measures exactly depth `d` — empty
containers included.  Only the `d = 0` case fails: a MERGE step rebuilds a
list layer, so reduction to depth 0 leaves measured depth 1 (see the
counterexample). -/
theorem C6_amended_merge_reduces_depth (x : Val) (d : Nat) (hd1 : 1 ≤ d)
    (hgt : d < get_max_depth x 0 0 false) :
    ∃ r, ensure_uniform_depth x (d : Int) false false .merge 0 0 = .ok r ∧
      get_max_depth r 0 0 false = d := by
  have hd0 : ¬ ((d : Int) < 0) := by omega
  obtain ⟨r, h1, h2⟩ :=
    merge_chain (get_max_depth x 0 0 false - d) x d hd1 (by omega)
  refine ⟨r, ?_, h2⟩
  unfold ensure_uniform_depth
  rw [if_neg hd0]
  simp only [Bool.false_eq_true, if_false, Int.toNat_natCast]
  unfold ensure_depth_outside_in
  have hnl : ¬ (get_max_depth x 0 0 false < d) := by omega
  rw [if_neg hnl, if_pos hgt, h1]

/-- C6 witness: the amended theorem evaluated at `[[]]` with target depth 1 —
the MERGE reduction splices the empty inner list away, returning `[]` of
measured depth exactly 1. -/
theorem C6_amended_witness :
    ∃ r, ensure_uniform_depth (.list (.cons (.list .nil) .nil)) (1 : Int)
        false false .merge 0 0 = .ok r ∧ get_max_depth r 0 0 false = 1 :=
  C6_amended_merge_reduces_depth (.list (.cons (.list .nil) .nil)) 1
    (by decide) (by decide)

/-- Successful exact-depth re-validation preserves the measured depth (over
keys), proved simultaneously for values, element lists and pair lists. -/
theorem fix_preserves_depth :
    (∀ x : Val, ∀ (d s b : Nat) (r : Val), fix_exact_depth x d s b = .ok r →
        get_max_depth r s b false = get_max_depth x s b false) ∧
    (∀ l : VList, ∀ (d s b : Nat) (ys : VList), fixL l d s b = .ok ys →
        maxDepthL ys s b false = maxDepthL l s b false) ∧
    (∀ kv : VPairs, ∀ (d s b : Nat) (ys : VList), fixP kv d s b = .ok ys →
        maxDepthL ys s b false = maxDepthP kv s b false) := by
  refine val_mutual_induction _ _ _ ?_ ?_ ?_ ?_ ?_ ?_ ?_ ?_ ?_ ?_ ?_
  · intro n d s b r he
    cases d with
    | zero =>
      simp only [fix_exact_depth, Except.ok.injEq] at he
      rw [← he]
    | succ m => simp [fix_exact_depth] at he
  · intro t d s b r he
    cases d with
    | zero =>
      simp only [fix_exact_depth, Except.ok.injEq] at he
      rw [← he]
    | succ m =>
      by_cases hcond : s = 1 ∧ m = 0
      · simp only [fix_exact_depth, if_pos hcond, Except.ok.injEq] at he
        rw [← he]
      · simp [fix_exact_depth, if_neg hcond] at he
  · intro t d s b r he
    cases d with
    | zero =>
      simp only [fix_exact_depth, Except.ok.injEq] at he
      rw [← he]
    | succ m =>
      by_cases hcond : b = 1 ∧ m = 0
      · simp only [fix_exact_depth, if_pos hcond, Except.ok.injEq] at he
        rw [← he]
      · simp [fix_exact_depth, if_neg hcond] at he
  · intro xs ihQ d s b r he
    cases d with
    | zero =>
      simp only [fix_exact_depth, Except.ok.injEq] at he
      rw [← he]
    | succ m =>
      simp only [fix_exact_depth] at he
      cases hfx : fixL xs m s b with
      | error e => rw [hfx] at he; exact Except.noConfusion he
      | ok ys =>
        rw [hfx] at he
        simp only [Except.ok.injEq] at he
        rw [← he]
        simp only [get_max_depth]
        rw [ihQ m s b ys hfx]
  · intro xs ihQ d s b r he
    cases d with
    | zero =>
      simp only [fix_exact_depth, Except.ok.injEq] at he
      rw [← he]
    | succ m =>
      simp only [fix_exact_depth] at he
      cases hfx : fixL xs m s b with
      | error e => rw [hfx] at he; exact Except.noConfusion he
      | ok ys =>
        rw [hfx] at he
        simp only [Except.ok.injEq] at he
        rw [← he]
        simp only [get_max_depth]
        rw [ihQ m s b ys hfx]
  · intro xs ihQ d s b r he
    cases d with
    | zero =>
      simp only [fix_exact_depth, Except.ok.injEq] at he
      rw [← he]
    | succ m =>
      simp only [fix_exact_depth] at he
      cases hfx : fixL xs m s b with
      | error e => rw [hfx] at he; exact Except.noConfusion he
      | ok ys =>
        rw [hfx] at he
        simp only [Except.ok.injEq] at he
        rw [← he]
        simp only [get_max_depth]
        rw [ihQ m s b ys hfx]
  · intro kvs ihR d s b r he
    cases d with
    | zero =>
      simp only [fix_exact_depth, Except.ok.injEq] at he
      rw [← he]
    | succ m =>
      simp only [fix_exact_depth] at he
      cases hfx : fixP kvs m s b with
      | error e => rw [hfx] at he; exact Except.noConfusion he
      | ok ys =>
        rw [hfx] at he
        simp only [Except.ok.injEq] at he
        rw [← he]
        simp only [get_max_depth]
        rw [ihR m s b ys hfx]
  · intro d s b ys he
    simp only [fixL, Except.ok.injEq] at he
    rw [← he]
  · intro x rest ihP ihQ d s b ys he
    simp only [fixL] at he
    cases hfx : fix_exact_depth x d s b with
    | error e => rw [hfx] at he; exact Except.noConfusion he
    | ok y =>
      rw [hfx] at he
      cases hfr : fixL rest d s b with
      | error e => rw [hfr] at he; exact Except.noConfusion he
      | ok ys2 =>
        rw [hfr] at he
        simp only [Except.ok.injEq] at he
        rw [← he]
        simp only [maxDepthL]
        rw [ihP d s b y hfx, ihQ d s b ys2 hfr]
  · intro d s b ys he
    simp only [fixP, Except.ok.injEq] at he
    rw [← he]
    rfl
  · intro k v rest ihPk _ ihR d s b ys he
    simp only [fixP] at he
    cases hfx : fix_exact_depth k d s b with
    | error e => rw [hfx] at he; exact Except.noConfusion he
    | ok y =>
      rw [hfx] at he
      cases hfr : fixP rest d s b with
      | error e => rw [hfr] at he; exact Except.noConfusion he
      | ok ys2 =>
        rw [hfr] at he
        simp only [Except.ok.injEq] at he
        rw [← he]
        simp only [maxDepthL, maxDepthP, Bool.false_eq_true, if_false]
        rw [ihPk d s b y hfx, ihR d s b ys2 hfr]

/-- A successful STRICT / ERROR_ON_EXTRA unwrap comes from a container with
exactly one iterated element, which is the result. -/
theorem strict_unwrap_ok_inv (x y : Val) (p : UnwrapPolicy)
    (hp : p = .strict ∨ p = .errorOnExtra)
    (h : unwrap_one_layer x p = .ok y) :
    is_strict_container x = true ∧ elems x = .cons y .nil := by
  by_cases hc : is_strict_container x = true
  · refine ⟨hc, ?_⟩
    unfold unwrap_one_layer at h
    rw [hc] at h
    rw [if_neg (by simp : ¬ (true = false))] at h
    rcases hp with rfl | rfl <;>
    · cases hel : elems x with
      | nil => rw [hel] at h; simp at h
      | cons e rest =>
        cases rest with
        | nil =>
          rw [hel] at h
          simp only [Except.ok.injEq] at h
          rw [h]
        | cons e2 rest2 => rw [hel] at h; simp at h
  · have hcf : is_strict_container x = false := by
      revert hc
      cases is_strict_container x <;> simp
    unfold unwrap_one_layer at h
    rw [hcf] at h
    simp at h

/-- A successful STRICT / ERROR_ON_EXTRA unwrap lowers the measured depth
(over keys) by exactly one. -/
theorem strict_unwrap_step (x y : Val) (p : UnwrapPolicy) (s b : Nat)
    (hp : p = .strict ∨ p = .errorOnExtra)
    (h : unwrap_one_layer x p = .ok y) :
    get_max_depth x s b false = 1 + get_max_depth y s b false := by
  obtain ⟨hc, hel⟩ := strict_unwrap_ok_inv x y p hp h
  rw [get_max_depth_container x s b hc, hel]
  simp [maxDepthL]

/-- Iterated STRICT / ERROR_ON_EXTRA unwrapping lowers the measured depth by
exactly the number of removed layers. -/
theorem strict_unwrap_chain : ∀ (k : Nat) (x r : Val) (p : UnwrapPolicy) (s b : Nat),
    (p = .strict ∨ p = .errorOnExtra) → unwrap_to_depth x k p = .ok r →
    get_max_depth x s b false = k + get_max_depth r s b false
  | 0, x, r, p, s, b, _, h => by
    simp only [unwrap_to_depth, Except.ok.injEq] at h
    rw [h]
    omega
  | k + 1, x, r, p, s, b, hp, h => by
    simp only [unwrap_to_depth] at h
    cases hu : unwrap_one_layer x p with
    | error e => rw [hu] at h; exact Except.noConfusion h
    | ok y =>
      rw [hu] at h
      have hstep := strict_unwrap_step x y p s b hp hu
      have hrec := strict_unwrap_chain k y r p s b hp h
      omega

/-- C9: with `depth_of_dict_values=False` and the STRICT or ERROR_ON_EXTRA
policy, every successful outside-in call lands exactly on the target depth:
wrapping adds exactly the deficit, each unwrap removes exactly one layer, and
exact-depth re-validation preserves the measured depth. -/
theorem C9_outside_in_strict_postcondition (x : Val) (d s b : Nat)
    (p : UnwrapPolicy) (r : Val) (hp : p = .strict ∨ p = .errorOnExtra)
    (h : ensure_uniform_depth x (d : Int) false false p s b = .ok r) :
    get_max_depth r s b false = d := by
  unfold ensure_uniform_depth at h
  rw [if_neg (by omega : ¬ ((d : Int) < 0))] at h
  simp only [Bool.false_eq_true, if_false, Int.toNat_natCast] at h
  unfold ensure_depth_outside_in at h
  by_cases h1 : get_max_depth x s b false < d
  · rw [if_pos h1] at h
    simp only [Except.ok.injEq] at h
    rw [← h, get_max_depth_wrap]
    omega
  · rw [if_neg h1] at h
    by_cases h2 : d < get_max_depth x s b false
    · rw [if_pos h2] at h
      cases hu : unwrap_to_depth x (get_max_depth x s b false - d) p with
      | error e => rw [hu] at h; exact Except.noConfusion h
      | ok u =>
        rw [hu] at h
        simp only [Except.ok.injEq] at h
        have hch := strict_unwrap_chain _ x u p s b hp hu
        rw [← h]
        omega
    · rw [if_neg h2] at h
      have hfix := fix_preserves_depth.1 x d s b r h
      omega

/-- C9 witness: the postcondition evaluated on wrapping the atom 3 to
depth 1 under STRICT. -/
theorem C9_witness : get_max_depth (.list (.cons (.int 3) .nil)) 0 0 false = 1 :=
  C9_outside_in_strict_postcondition (.int 3) 1 0 0 .strict
    (.list (.cons (.int 3) .nil)) (Or.inl rfl) rfl

theorem find?_map_const (l : List Nat) (j : Nat) (d : Int) (hj : j ∈ l) :
    (l.map fun i => (i, d)).find? (fun q => q.1 == j) = some (j, d) := by
  induction l with
  | nil => cases hj
  | cons a t ih =>
    by_cases ha : a = j
    · subst ha
      rw [List.map_cons, List.find?_cons_of_pos]
      simp
    · rcases List.mem_cons.mp hj with rfl | hm
      · exact absurd rfl ha
      · rw [List.map_cons, List.find?_cons_of_neg]
        · exact ih hm
        · simp [ha]

/-- The mapping produced by `_normalize_depth_spec` from a plain int maps
every index below the argument count to that depth. -/
theorem lookupDepth_int_spec (n j : Nat) (d : Int) (hj : j < n) :
    lookupDepth (normalize_depth_spec (.int d) n) j = some d := by
  unfold normalize_depth_spec lookupDepth
  rw [find?_map_const (List.range n) j d (List.mem_range.mpr hj)]

/-- When the mapping sends every visited index to `d`, the index-driven
coercion loop coincides with the uniform-depth loop. -/
theorem coerceFrom_const_eq_uniform : ∀ (args : List Val) (i : Nat)
    (m : List (Nat × Int)) (d : Int) (io dv : Bool) (p : UnwrapPolicy) (s b : Nat),
    (∀ j, j < args.length → lookupDepth m (i + j) = some d) →
    coerceArgsFrom m io dv p s b args i = coerceArgsUniform d io dv p s b args
  | [], _, _, _, _, _, _, _, _, _ => rfl
  | a :: rest, i, m, d, io, dv, p, s, b, h => by
    have h0 : lookupDepth m i = some d := by
      have h00 := h 0 (by simp)
      rwa [Nat.add_zero] at h00
    have hrest : ∀ j, j < rest.length → lookupDepth m ((i + 1) + j) = some d := by
      intro j hj
      have h2 := h (j + 1) (by simp; omega)
      rwa [show i + (j + 1) = i + 1 + j from by omega] at h2
    simp only [coerceArgsFrom, coerceArgsUniform, h0]
    rw [coerceFrom_const_eq_uniform rest (i + 1) m d io dv p s b hrest]

/-- C8: the three decorator paths coincide: the variable-depth coercion given
a plain int `d` is definitionally the uniform-depth coercion, and the general
mapping path coincides with it (same coerced arguments, or the same error,
hence the same invocation outcome for every wrapped function) whenever the
mapping sends every argument index to `d` — in particular for the mapping
`_normalize_depth_spec` builds from the int spec. -/
theorem C8_decorator_paths_agree (d : Int) (io dv : Bool) (p : UnwrapPolicy)
    (s b : Nat) (args : List Val) (m : List (Nat × Int)) (f : List Val → Val)
    (h : ∀ j, j < args.length → lookupDepth m j = some d) :
    enforce_args_depth_coerce (.int d) io dv p s b args
        = enforce_args_uniform_depth_coerce d io dv p s b args ∧
    enforce_args_depth_coerce (.dict m) io dv p s b args
        = enforce_args_uniform_depth_coerce d io dv p s b args ∧
    coerceArgsFrom (normalize_depth_spec (.int d) args.length) io dv p s b args 0
        = enforce_args_uniform_depth_coerce d io dv p s b args ∧
    invokeWith f (enforce_args_depth_coerce (.dict m) io dv p s b args)
        = invokeWith f (enforce_args_uniform_depth_coerce d io dv p s b args) := by
  have key : enforce_args_depth_coerce (.dict m) io dv p s b args
      = enforce_args_uniform_depth_coerce d io dv p s b args := by
    unfold enforce_args_depth_coerce normalize_depth_spec
      enforce_args_uniform_depth_coerce
    refine coerceFrom_const_eq_uniform args 0 m d io dv p s b ?_
    intro j hj
    rw [Nat.zero_add]
    exact h j hj
  have key2 : coerceArgsFrom (normalize_depth_spec (.int d) args.length)
      io dv p s b args 0 = enforce_args_uniform_depth_coerce d io dv p s b args := by
    unfold enforce_args_uniform_depth_coerce
    refine coerceFrom_const_eq_uniform args 0 _ d io dv p s b ?_
    intro j hj
    rw [Nat.zero_add]
    exact lookupDepth_int_spec args.length j d hj
  exact ⟨rfl, key, key2, by rw [key]⟩

/-- C8 witness: the agreement evaluated with depth 1 on a single atomic
argument and the explicit mapping sending index 0 to 1. -/
theorem C8_witness :
    enforce_args_depth_coerce (.int 1) false false .strict 0 0 [.int 5]
        = enforce_args_uniform_depth_coerce 1 false false .strict 0 0 [.int 5] ∧
    enforce_args_depth_coerce (.dict [(0, 1)]) false false .strict 0 0 [.int 5]
        = enforce_args_uniform_depth_coerce 1 false false .strict 0 0 [.int 5] ∧
    coerceArgsFrom (normalize_depth_spec (.int 1) 1) false false .strict 0 0 [.int 5] 0
        = enforce_args_uniform_depth_coerce 1 false false .strict 0 0 [.int 5] ∧
    invokeWith (fun _ => .list .nil)
        (enforce_args_depth_coerce (.dict [(0, 1)]) false false .strict 0 0 [.int 5])
        = invokeWith (fun _ => .list .nil)
        (enforce_args_uniform_depth_coerce 1 false false .strict 0 0 [.int 5]) :=
  C8_decorator_paths_agree 1 false false .strict 0 0 [.int 5] [(0, 1)]
    (fun _ => .list .nil) (by decide)
